import Mathlib

/-!  Verification development for the google-form autofill repository
(`form.py`).  The embedding follows the source: `normalize_text`,
`fill_form_entries`, `parse_form_entries` (with its inner `parse_entry`)
and `extract_script_variables`.  Python dictionaries produced by the schema
normalizer are modelled as JSON-like objects; the descriptor records
consumed by the answer resolver are modelled as a Lean structure with the
same fields. -/

/-- Python whitespace class (the character class matched by a backslash-s
pattern) restricted to ASCII: space, tab, newline, vertical tab, form feed,
carriage return.  In `normalize_text` every character is ASCII by the time
the class is used, because the ascii-ignore encoding step has already
removed all non-ASCII characters. -/
def isPySpace (c : Char) : Bool :=
  c == ' ' || c == Char.ofNat 9 || c == Char.ofNat 10 || c == Char.ofNat 11 ||
    c == Char.ofNat 12 || c == Char.ofNat 13

/-- Combining acute accent U+0301. -/
def combiningAcute : Char := Char.ofNat 769

/-- Right single quotation mark U+2019 (the curly apostrophe). -/
def curlyApos : Char := Char.ofNat 8217

/-- ASCII apostrophe U+0027. -/
def asciiApos : Char := Char.ofNat 39

/-- Grave accent U+0060. -/
def graveChar : Char := Char.ofNat 96

/-- Modelled from the Unicode character database (external to the
repository: the NFKD normalization called in `normalize_text`).  The table
covers the decomposable characters exercised in this development; every
character without a listed decomposition maps to itself.  In particular
U+2019 has no decomposition in Unicode, so it maps to itself. -/
def nfkdChar (c : Char) : List Char :=
  if c == Char.ofNat 233 then [Char.ofNat 101, combiningAcute]
  else if c == Char.ofNat 201 then [Char.ofNat 69, combiningAcute]
  else if c == Char.ofNat 224 then [Char.ofNat 97, Char.ofNat 768]
  else [c]

/-- The encode-ascii-ignore-decode step of `normalize_text`: every
non-ASCII character is dropped. -/
def asciiIgnore (cs : List Char) : List Char :=
  cs.filter (fun c => c.toNat < 128)

/-- Python single-character `str.replace`. -/
def replaceChar (a b : Char) (cs : List Char) : List Char :=
  cs.map (fun c => if c == a then b else c)

/-- The whitespace-collapsing regex substitution in `normalize_text`: every
maximal run of whitespace becomes a single space.  The flag records whether
the previous character was part of a whitespace run. -/
def collapseWsAux : Bool → List Char → List Char
  | _, [] => []
  | prevWs, c :: rest =>
    if isPySpace c then
      (if prevWs then [] else [' ']) ++ collapseWsAux true rest
    else
      c :: collapseWsAux false rest

/-- Python `str.strip` (whitespace on both ends). -/
def pyStrip (cs : List Char) : List Char :=
  ((cs.dropWhile isPySpace).reverse.dropWhile isPySpace).reverse

/-- Python `str.lower` on an ASCII string. -/
def asciiLower (c : Char) : Char :=
  if 65 ≤ c.toNat && c.toNat ≤ 90 then Char.ofNat (c.toNat + 32) else c

/-- `normalize_text` from form.py: NFKD-decompose and drop non-ASCII
characters, fold the curly apostrophe and the grave accent to the ASCII
apostrophe (the third replace in the source maps the ASCII apostrophe to
itself), collapse whitespace runs, strip, lowercase.  Note the quote
replacements run after the ASCII strip, exactly as in the source. -/
def normalize_text (s : String) : String :=
  let cs := s.data.flatMap nfkdChar
  let cs := asciiIgnore cs
  let cs := replaceChar curlyApos asciiApos cs
  let cs := replaceChar graveChar asciiApos cs
  let cs := replaceChar asciiApos asciiApos cs
  let cs := collapseWsAux false cs
  let cs := pyStrip cs
  String.mk (cs.map asciiLower)

/-- A decoded JSON value, as returned by the Python json module: the raw
form dump and the descriptor dictionaries built by the schema normalizer
are modelled with this type. -/
inductive JVal where
  | null
  | bool (b : Bool)
  | num (n : Int)
  | str (s : String)
  | arr (xs : List JVal)
  | obj (fields : List (String × JVal))


/-- Question type tag stored in the `type` field of a descriptor handled by
the answer resolver: the numeric type id taken from the dump, or one of the
synthetic string tags used by the source for pseudo-fields and for the
other-option response field. -/
inductive FieldType where
  | tid (n : Int)
  | required
  | text
  deriving DecidableEq, Repr

/-- The `options` value of a descriptor dictionary: the key may hold `None`,
a list of option labels, or (for the pseudo-fields) a plain string. -/
inductive EntryOptions where
  | none
  | list (xs : List String)
  | str (s : String)
  deriving DecidableEq, Repr

/-- A descriptor dictionary as consumed by `fill_form_entries`, with
string-valued labels (the resolver claims concern string-valued fields; a
key that may be absent in the Python dict is modelled with `Option` or with
`EntryOptions.none`). -/
structure Entry where
  id : String
  container_name : String
  type : FieldType
  required : Bool
  name : Option String := Option.none
  options : EntryOptions := EntryOptions.none
  default_value : Option String := Option.none
  deriving DecidableEq, Repr

/-- The Python expression `(entry['options'] or [])[::]` followed by the
uses made of it in `fill_form_entries`: `None` and the empty string are
falsy and give the empty list; a list is copied unchanged; a non-empty
string behaves, under the iteration, indexing and truthiness tests done by
`fill_form_entries`, exactly like the list of its one-character
substrings. -/
def optionsToList : EntryOptions → List String
  | EntryOptions.none => []
  | EntryOptions.list xs => xs
  | EntryOptions.str s => s.data.map (fun c => String.mk [c])

/-- Truthiness of `entry.get('default_value')`: an absent key and the empty
string are falsy, any other string is truthy. -/
def entryTruthyDefault (e : Entry) : Bool :=
  match e.default_value with
  | Option.some s => s != ""
  | Option.none => false

/-- The fill-strategy interface of the source:
`(type, id, options, required, container_name)` to a candidate answer. -/
def FillAlg : Type :=
  FieldType → String → List String → Bool → String → String

/-- Python `list.index` (index of the first occurrence; the call in the
source is guarded by a membership test). -/
def idxOfStr (v : String) : List String → Nat
  | [] => 0
  | s :: rest => if s == v then 0 else idxOfStr v rest + 1

/-- The body of one `fill_form_entries` loop iteration on a descriptor
whose default is not truthy: obtain the candidate from the fill strategy,
compare normalized candidate and normalized options, and return the
updated descriptor together with the optional synthetic
other-option-response descriptor created by the no-match branch. -/
def resolveEntry (f : FillAlg) (e : Entry) : Entry × Option Entry :=
  let options := optionsToList e.options
  let selected := f e.type e.id options e.required e.container_name
  let normalizedOptions := options.map normalize_text
  let normalizedSelected := normalize_text selected
  if selected != "" && !options.isEmpty && normalizedOptions.contains normalizedSelected then
    ({ e with default_value :=
        Option.some (options.getD (idxOfStr normalizedSelected normalizedOptions) "") },
     Option.none)
  else if selected != "" && !options.isEmpty then
    ({ e with default_value := Option.some "__other_option__" },
     Option.some
       { id := e.id ++ ".other_option_response"
         container_name := e.container_name ++ " (Other)"
         type := FieldType.text
         required := e.required
         default_value := Option.some selected })
  else
    ({ e with default_value := Option.some selected }, Option.none)

/-- The descriptor a loop iteration leaves at the position of the visited
descriptor: unchanged when the default is truthy (the skip branch),
otherwise the first component of `resolveEntry`. -/
def stepEntry (f : FillAlg) (e : Entry) : Entry :=
  if entryTruthyDefault e then e else (resolveEntry f e).1

def stepMap (f : FillAlg) (l : List Entry) : List Entry :=
  l.map (stepEntry f)

/-- Loop measure: Python iterates `entries` by index while the no-match
branch appends to `entries`; each iteration either consumes a descriptor
with a truthy default (appending nothing) or consumes one of the at most
`length` descriptors without one (appending at most one descriptor that
does carry a truthy default), so the iteration count is bounded by this
measure. -/
def fillMeasure (todo : List Entry) : Nat :=
  todo.length + (todo.filter (fun e => !entryTruthyDefault e)).length

/-- The `fill_form_entries` loop, fuel-indexed.  `done` is the visited
prefix of the Python list and `todo` the unvisited rest, so the append of
the no-match branch lands at the end of `todo`.  When the fuel runs out
the remaining suffix is returned unprocessed; `fillMeasure todo` fuel
always suffices (theorem `C10_fill_form_entries_iteration_invariants`). -/
def fillLoopFuel (f : FillAlg) : Nat → List Entry → List Entry → List Entry
  | 0, done, todo => done ++ todo
  | _ + 1, done, [] => done
  | fuel + 1, done, e :: rest =>
    if entryTruthyDefault e then
      fillLoopFuel f fuel (done ++ [e]) rest
    else
      match resolveEntry f e with
      | (e2, Option.none) => fillLoopFuel f fuel (done ++ [e2]) rest
      | (e2, Option.some o) => fillLoopFuel f fuel (done ++ [e2]) (rest ++ [o])

/-- `fill_form_entries` from form.py.  The source iterates the list by
index while mutating it; the loop terminates within `2 * entries.length`
iterations because every appended descriptor carries a truthy default and
is therefore skipped when visited. -/
def fill_form_entries (f : FillAlg) (entries : List Entry) : List Entry :=
  fillLoopFuel f (2 * entries.length) [] entries

/-- The Python exceptions that the modelled code can raise. -/
inductive PyErr where
  | indexError
  | typeError
  | keyError
  deriving DecidableEq, Repr

/-- Python truthiness of a decoded JSON value. -/
def jtruthy : JVal → Bool
  | JVal.null => false
  | JVal.bool b => b
  | JVal.num n => n != 0
  | JVal.str s => s != ""
  | JVal.arr xs => !xs.isEmpty
  | JVal.obj fs => !fs.isEmpty

/-- Python subscription `v[i]` with a non-negative integer index: lists and
strings index (a string yields a one-character string), indexing a dict
with an integer raises KeyError because decoded JSON objects have string
keys, and the remaining types raise TypeError. -/
def pyIndex : JVal → Nat → Except PyErr JVal
  | JVal.arr xs, i =>
    match xs[i]? with
    | Option.some x => Except.ok x
    | Option.none => Except.error PyErr.indexError
  | JVal.str s, i =>
    match s.data[i]? with
    | Option.some c => Except.ok (JVal.str (String.mk [c]))
    | Option.none => Except.error PyErr.indexError
  | JVal.obj _, _ => Except.error PyErr.keyError
  | _, _ => Except.error PyErr.typeError

/-- Python iteration `for x in v`: lists yield their elements, strings
their one-character substrings, dicts their keys; the remaining types raise
TypeError. -/
def pyIter : JVal → Except PyErr (List JVal)
  | JVal.arr xs => Except.ok xs
  | JVal.str s => Except.ok (s.data.map (fun c => JVal.str (String.mk [c])))
  | JVal.obj fs => Except.ok (fs.map (fun kv => JVal.str kv.1))
  | _ => Except.error PyErr.typeError

/-- Python `len(v)` for sized values. -/
def pyLen : JVal → Except PyErr Nat
  | JVal.arr xs => Except.ok xs.length
  | JVal.str s => Except.ok s.data.length
  | JVal.obj fs => Except.ok fs.length
  | _ => Except.error PyErr.typeError

/-- Python equality `v == n` against an integer literal (booleans compare
as 0 and 1, other non-numeric values compare unequal without raising). -/
def jvalEqInt (v : JVal) (n : Int) : Bool :=
  match v with
  | JVal.num m => m == n
  | JVal.bool b => (if b then (1 : Int) else 0) == n
  | _ => false

/-- Python comparison `v > n` against an integer literal: numbers and
booleans compare, every other operand raises TypeError. -/
def jvalGtInt (v : JVal) (n : Int) : Except PyErr Bool :=
  match v with
  | JVal.num m => Except.ok (n < m)
  | JVal.bool b => Except.ok (n < (if b then (1 : Int) else 0))
  | _ => Except.error PyErr.typeError

/-- A decoded value required to be a string (the elements handed to
`str.join` must be strings or Python raises TypeError). -/
def pyStrOf : JVal → Except PyErr String
  | JVal.str s => Except.ok s
  | _ => Except.error PyErr.typeError

def pyStrList : List JVal → Except PyErr (List String)
  | [] => Except.ok []
  | x :: rest =>
    match pyStrOf x with
    | Except.error e => Except.error e
    | Except.ok s =>
      match pyStrList rest with
      | Except.error e => Except.error e
      | Except.ok more => Except.ok (s :: more)

/-- Python `sep.join(v)`. -/
def pyJoin (sep : String) (v : JVal) : Except PyErr String :=
  match pyIter v with
  | Except.error e => Except.error e
  | Except.ok parts =>
    match pyStrList parts with
    | Except.error e => Except.error e
    | Except.ok strs => Except.ok (String.intercalate sep strs)

/-- The option-label comprehension of `parse_entry`: each option row is
indexed at 0 and a falsy label is replaced by the free-text sentinel. -/
def parseOpts : List JVal → Except PyErr (List JVal)
  | [] => Except.ok []
  | x :: rest =>
    match pyIndex x 0 with
    | Except.error e => Except.error e
    | Except.ok x0 =>
      match parseOpts rest with
      | Except.error e => Except.error e
      | Except.ok more =>
        Except.ok ((if jtruthy x0 then x0 else JVal.str "ANY TEXT!!") :: more)

/-- One sub-entry of a question, following the evaluation order of the
Python dict literal in `parse_entry`: id from index 0, the required flag
from index 2 compared against 1, the optional joined sub-label from index 3
when the length exceeds 3 and the value is truthy, and the option-label
list from index 1 when that value is truthy.  When the caller requested
required-only filtering, a non-required sub-entry contributes nothing. -/
def parseSub (onlyRequired : Bool) (ename etype : JVal) (sub : JVal) :
    Except PyErr (List JVal) :=
  match pyIndex sub 0 with
  | Except.error e => Except.error e
  | Except.ok s0 =>
    match pyIndex sub 2 with
    | Except.error e => Except.error e
    | Except.ok s2 =>
      let req := jvalEqInt s2 1
      match pyLen sub with
      | Except.error e => Except.error e
      | Except.ok len =>
        let nameStep : Except PyErr JVal :=
          if len > 3 then
            match pyIndex sub 3 with
            | Except.error e => Except.error e
            | Except.ok s3 =>
              if jtruthy s3 then
                match pyJoin " - " s3 with
                | Except.error e => Except.error e
                | Except.ok j => Except.ok (JVal.str j)
              else Except.ok JVal.null
          else Except.ok JVal.null
        match nameStep with
        | Except.error e => Except.error e
        | Except.ok nm =>
          match pyIndex sub 1 with
          | Except.error e => Except.error e
          | Except.ok s1 =>
            let optsStep : Except PyErr JVal :=
              if jtruthy s1 then
                match pyIter s1 with
                | Except.error e => Except.error e
                | Except.ok xs =>
                  match parseOpts xs with
                  | Except.error e => Except.error e
                  | Except.ok os => Except.ok (JVal.arr os)
              else Except.ok JVal.null
            match optsStep with
            | Except.error e => Except.error e
            | Except.ok opts =>
              if onlyRequired && !req then Except.ok []
              else
                Except.ok [JVal.obj [("id", s0), ("container_name", ename),
                  ("type", etype), ("required", JVal.bool req), ("name", nm),
                  ("options", opts)]]

def parseSubs (onlyRequired : Bool) (ename etype : JVal) :
    List JVal → Except PyErr (List JVal)
  | [] => Except.ok []
  | s :: rest =>
    match parseSub onlyRequired ename etype s with
    | Except.error e => Except.error e
    | Except.ok infos =>
      match parseSubs onlyRequired ename etype rest with
      | Except.error e => Except.error e
      | Except.ok more => Except.ok (infos ++ more)

/-- `parse_entry` from form.py: read the container name at index 1 and the
type id at index 3, then iterate the variant list at index 4 when it is a
list; an index-4 value of any other shape makes the entry contribute
nothing (a warning is printed in the source). -/
def parse_entry (onlyRequired : Bool) (entry : JVal) : Except PyErr (List JVal) :=
  match pyIndex entry 1 with
  | Except.error e => Except.error e
  | Except.ok ename =>
    match pyIndex entry 3 with
    | Except.error e => Except.error e
    | Except.ok etype =>
      match pyIndex entry 4 with
      | Except.error e => Except.error e
      | Except.ok e4 =>
        match e4 with
        | JVal.arr subs => parseSubs onlyRequired ename etype subs
        | _ => Except.ok []

/-- The main loop of `parse_form_entries`: an entry whose index-3 value
equals the page-break sentinel type 8 is skipped and counted, every other
entry is expanded through `parse_entry`. -/
def parseLoop (onlyRequired : Bool) : List JVal → Except PyErr (List JVal × Nat)
  | [] => Except.ok ([], 0)
  | q :: rest =>
    match pyIndex q 3 with
    | Except.error e => Except.error e
    | Except.ok t =>
      if jvalEqInt t 8 then
        match parseLoop onlyRequired rest with
        | Except.error e => Except.error e
        | Except.ok (ps, c) => Except.ok (ps, c + 1)
      else
        match parse_entry onlyRequired q with
        | Except.error e => Except.error e
        | Except.ok infos =>
          match parseLoop onlyRequired rest with
          | Except.error e => Except.error e
          | Except.ok (ps, c) => Except.ok (infos ++ ps, c)

/-- The comma-joined page history value `0,1,...,pageCount` built by the
source from `range(page_count + 1)`. -/
def commaRange (n : Nat) : String :=
  String.intercalate "," ((List.range (n + 1)).map toString)

/-- The synthetic email pseudo-field dictionary appended by
`parse_form_entries`. -/
def emailObj : JVal :=
  JVal.obj [("id", JVal.str "emailAddress"),
    ("container_name", JVal.str "Email Address"),
    ("type", JVal.str "required"),
    ("required", JVal.bool true),
    ("options", JVal.str "email address")]

/-- The synthetic page-history pseudo-field dictionary appended by
`parse_form_entries` when page-break entries were skipped. -/
def pageHistoryObj (pageCount : Nat) : JVal :=
  JVal.obj [("id", JVal.str "pageHistory"),
    ("container_name", JVal.str "Page History"),
    ("type", JVal.str "required"),
    ("required", JVal.bool false),
    ("options", JVal.str "from 0 to (number of page - 1)"),
    ("default_value", JVal.str (commaRange pageCount))]

/-- Whether the main loop would treat a question entry as a page break. -/
def isPageBreak (q : JVal) : Bool :=
  match pyIndex q 3 with
  | Except.ok t => jvalEqInt t 8
  | Except.error _ => false

/-- `parse_form_entries` from form.py, taking the already-decoded dump (the
source first fetches the page and decodes the embedded variable; the claims
concern the decoded value).  The truthiness guard mirrors
`not v or not v[1] or not v[1][1]`, including its short-circuiting; an
`Except.error` result models an exception escaping the function, and
`Except.ok Option.none` models the graceful `return None` with the logged
message. -/
def parse_form_entries (onlyRequired : Bool) (v : JVal) :
    Except PyErr (Option (List JVal)) :=
  if !jtruthy v then Except.ok Option.none
  else
    match pyIndex v 1 with
    | Except.error e => Except.error e
    | Except.ok v1 =>
      if !jtruthy v1 then Except.ok Option.none
      else
        match pyIndex v1 1 with
        | Except.error e => Except.error e
        | Except.ok v11 =>
          if !jtruthy v11 then Except.ok Option.none
          else
            match pyIter v11 with
            | Except.error e => Except.error e
            | Except.ok qs =>
              match parseLoop onlyRequired qs with
              | Except.error e => Except.error e
              | Except.ok (ps, pageCount) =>
                match pyIndex v1 10 with
                | Except.error e => Except.error e
                | Except.ok v110 =>
                  match pyIndex v110 6 with
                  | Except.error e => Except.error e
                  | Except.ok mode =>
                    match jvalGtInt mode 1 with
                    | Except.error e => Except.error e
                    | Except.ok gt =>
                      let ps := if gt then ps ++ [emailObj] else ps
                      let ps := if pageCount > 0 then ps ++ [pageHistoryObj pageCount] else ps
                      Except.ok (Option.some ps)

/-- The shape of every descriptor dictionary produced for a question
sub-entry: six keys in the fixed order of the dict literal in
`parse_entry`. -/
def questionShaped (x : JVal) : Prop :=
  ∃ a b c d n o, x = JVal.obj [("id", a), ("container_name", b), ("type", c),
    ("required", d), ("name", n), ("options", o)]

/-- Literal-prefix matcher: returns the remaining input after the literal,
or nothing when the input does not start with it. -/
def expectPrefixCh : List Char → List Char → Option (List Char)
  | [], s => Option.some s
  | _ :: _, [] => Option.none
  | c :: cs, x :: xs => if x == c then expectPrefixCh cs xs else Option.none

/-- The lazily matched group interior: the characters before the earliest
closing bracket that is immediately followed by a semicolon (the
non-greedy any-character repetition of the pattern, scanning newlines too
because of the DOTALL flag); nothing when no such position exists. -/
def lazyContent : List Char → Option (List Char)
  | ']' :: ';' :: _ => Option.some []
  | c :: rest => (lazyContent rest).map (fun t => c :: t)
  | [] => Option.none

/-- The search pattern of `extract_script_variables` anchored at the start
of `s`: the literal var, one whitespace character, the (regex-escaped,
hence literal) name, optional whitespace, an equals sign, optional
whitespace, then the captured group — an opening bracket, lazily as few
characters as possible, a closing bracket — followed by a semicolon.
Returns the captured group.  The whitespace class is modelled by the six
ASCII whitespace characters. -/
def matchVarAt (name : List Char) (s : List Char) : Option (List Char) :=
  match expectPrefixCh [Char.ofNat 118, Char.ofNat 97, Char.ofNat 114] s with
  | Option.none => Option.none
  | Option.some s1 =>
    match s1 with
    | [] => Option.none
    | c :: s2 =>
      if isPySpace c then
        match expectPrefixCh name s2 with
        | Option.none => Option.none
        | Option.some s3 =>
          match expectPrefixCh [Char.ofNat 61] (s3.dropWhile isPySpace) with
          | Option.none => Option.none
          | Option.some s4 =>
            match expectPrefixCh [Char.ofNat 91] (s4.dropWhile isPySpace) with
            | Option.none => Option.none
            | Option.some s5 =>
              match lazyContent s5 with
              | Option.none => Option.none
              | Option.some content =>
                Option.some (Char.ofNat 91 :: content ++ [Char.ofNat 93])
      else Option.none

/-- Leftmost-match semantics of the regex search: try every start position
from the left. -/
def searchVar (name : List Char) : List Char → Option (List Char)
  | [] => Option.none
  | c :: rest =>
    match matchVarAt name (c :: rest) with
    | Option.some g => Option.some g
    | Option.none => searchVar name rest

/-- JSON whitespace. -/
def isJsonWs (c : Char) : Bool :=
  c == ' ' || c == Char.ofNat 9 || c == Char.ofNat 10 || c == Char.ofNat 13

def isDigitCh (c : Char) : Bool :=
  48 ≤ c.toNat && c.toNat ≤ 57

def digitsVal (ds : List Char) : Nat :=
  ds.foldl (fun acc c => acc * 10 + (c.toNat - 48)) 0

/-- JSON integer literal after an optional minus sign: a single zero, or a
nonzero digit followed by digits.  The number grammar of the model is
restricted to integers: fractional and exponent forms are not modelled. -/
def parseNumTail (s : List Char) : Option (Int × List Char) :=
  let ds := s.takeWhile isDigitCh
  let rest := s.dropWhile isDigitCh
  if ds.isEmpty then Option.none
  else if ds.length > 1 && ds.head? == Option.some (Char.ofNat 48) then Option.none
  else Option.some ((digitsVal ds : Int), rest)

def hexVal (c : Char) : Option Nat :=
  if 48 ≤ c.toNat && c.toNat ≤ 57 then Option.some (c.toNat - 48)
  else if 97 ≤ c.toNat && c.toNat ≤ 102 then Option.some (c.toNat - 87)
  else if 65 ≤ c.toNat && c.toNat ≤ 70 then Option.some (c.toNat - 55)
  else Option.none

/-- Modelled from the JSON string grammar of the Python json module
(external to the repository): the characters after the opening quote, with
the standard escapes; a unicode escape must denote a scalar value
(surrogate pairs are not modelled) and unescaped control characters are
rejected. -/
def jstringTail : List Char → Option (List Char × List Char)
  | [] => Option.none
  | c :: rest =>
    if c == '"' then Option.some ([], rest)
    else if c == '\\' then
      match rest with
      | [] => Option.none
      | e :: rest2 =>
        if e == '"' || e == '\\' || e == '/' then
          (jstringTail rest2).map (fun p => (e :: p.1, p.2))
        else if e == 'b' then
          (jstringTail rest2).map (fun p => (Char.ofNat 8 :: p.1, p.2))
        else if e == 'f' then
          (jstringTail rest2).map (fun p => (Char.ofNat 12 :: p.1, p.2))
        else if e == 'n' then
          (jstringTail rest2).map (fun p => (Char.ofNat 10 :: p.1, p.2))
        else if e == 'r' then
          (jstringTail rest2).map (fun p => (Char.ofNat 13 :: p.1, p.2))
        else if e == 't' then
          (jstringTail rest2).map (fun p => (Char.ofNat 9 :: p.1, p.2))
        else if e == 'u' then
          match rest2 with
          | h1 :: h2 :: h3 :: h4 :: rest3 =>
            match hexVal h1, hexVal h2, hexVal h3, hexVal h4 with
            | Option.some a, Option.some b, Option.some c2, Option.some d =>
              let v := ((a * 16 + b) * 16 + c2) * 16 + d
              if 55296 ≤ v && v ≤ 57343 then Option.none
              else (jstringTail rest3).map (fun p => (Char.ofNat v :: p.1, p.2))
            | _, _, _, _ => Option.none
          | _ => Option.none
        else Option.none
    else if c.toNat < 32 then Option.none
    else (jstringTail rest).map (fun p => (c :: p.1, p.2))

mutual

/-- Modelled from the Python stdlib json.loads value grammar (external to
the repository): recursive descent, fuel-indexed; every nested call
decreases the fuel, and the wrapper supplies fuel exceeding any possible
nesting of the input. -/
def jvalue : Nat → List Char → Option (JVal × List Char)
  | 0, _ => Option.none
  | fuel + 1, s =>
    match s.dropWhile isJsonWs with
    | [] => Option.none
    | c :: rest =>
      if c == 'n' then
        (expectPrefixCh ['u', 'l', 'l'] rest).map (fun r => (JVal.null, r))
      else if c == 't' then
        (expectPrefixCh ['r', 'u', 'e'] rest).map (fun r => (JVal.bool true, r))
      else if c == 'f' then
        (expectPrefixCh ['a', 'l', 's', 'e'] rest).map (fun r => (JVal.bool false, r))
      else if c == '"' then
        (jstringTail rest).map (fun p => (JVal.str (String.mk p.1), p.2))
      else if c == Char.ofNat 91 then jarrayItems fuel rest
      else if c == Char.ofNat 123 then jobjItems fuel rest
      else if c == '-' then
        (parseNumTail rest).map (fun p => (JVal.num (-p.1), p.2))
      else (parseNumTail (c :: rest)).map (fun p => (JVal.num p.1, p.2))

def jarrayItems : Nat → List Char → Option (JVal × List Char)
  | 0, _ => Option.none
  | fuel + 1, s =>
    match s.dropWhile isJsonWs with
    | ']' :: rest => Option.some (JVal.arr [], rest)
    | _ =>
      match jvalue fuel s with
      | Option.none => Option.none
      | Option.some (v, r) => jarrayRest fuel [v] r

def jarrayRest : Nat → List JVal → List Char → Option (JVal × List Char)
  | 0, _, _ => Option.none
  | fuel + 1, acc, s =>
    match s.dropWhile isJsonWs with
    | ']' :: rest => Option.some (JVal.arr acc.reverse, rest)
    | ',' :: rest =>
      match jvalue fuel rest with
      | Option.none => Option.none
      | Option.some (v, r) => jarrayRest fuel (v :: acc) r
    | _ => Option.none

def jobjItems : Nat → List Char → Option (JVal × List Char)
  | 0, _ => Option.none
  | fuel + 1, s =>
    match s.dropWhile isJsonWs with
    | c :: rest =>
      if c == Char.ofNat 125 then Option.some (JVal.obj [], rest)
      else if c == '"' then
        match jstringTail rest with
        | Option.none => Option.none
        | Option.some (k, r) => jobjValue fuel [] (String.mk k) r
      else Option.none
    | [] => Option.none

def jobjValue : Nat → List (String × JVal) → String → List Char →
    Option (JVal × List Char)
  | 0, _, _, _ => Option.none
  | fuel + 1, acc, k, s =>
    match s.dropWhile isJsonWs with
    | ':' :: rest =>
      match jvalue fuel rest with
      | Option.none => Option.none
      | Option.some (v, r) => jobjRest fuel ((k, v) :: acc) r
    | _ => Option.none

def jobjRest : Nat → List (String × JVal) → List Char → Option (JVal × List Char)
  | 0, _, _ => Option.none
  | fuel + 1, acc, s =>
    match s.dropWhile isJsonWs with
    | c :: rest =>
      if c == Char.ofNat 125 then Option.some (JVal.obj acc.reverse, rest)
      else if c == ',' then
        match rest.dropWhile isJsonWs with
        | q :: rest2 =>
          if q == '"' then
            match jstringTail rest2 with
            | Option.none => Option.none
            | Option.some (k, r) => jobjValue fuel acc (String.mk k) r
          else Option.none
        | [] => Option.none
      else Option.none
    | [] => Option.none

end

/-- Modelled from the Python stdlib json.loads (external to the
repository): decode one JSON value surrounded by optional whitespace and
require the whole input to be consumed.  Model restrictions: integer
numbers only, no NaN or Infinity literals, unicode escapes limited to
scalar values. -/
def json_loads (s : String) : Option JVal :=
  match jvalue (2 * s.data.length + 16) s.data with
  | Option.some (v, rest) =>
    if (rest.dropWhile isJsonWs).isEmpty then Option.some v else Option.none
  | Option.none => Option.none

/-- `extract_script_variables` from form.py: search the markup for the
named script-embedded array literal (leftmost match of the delimiter
pattern) and decode the captured text as JSON.  An absent match and a JSON
decoding failure both return None — the decoding failure is logged in the
source, not raised. -/
def extract_script_variables (name html : String) : Option JVal :=
  match searchVar name.data html.data with
  | Option.some g => json_loads (String.mk g)
  | Option.none => Option.none

/-- String suffix test used to state the shape of the synthetic ids the
resolver creates. -/
def strEndsWith (s t : String) : Prop :=
  t.data <:+ s.data

instance (s t : String) : Decidable (strEndsWith s t) := by
  unfold strEndsWith
  infer_instance

/-- C1: normalization makes accent variants compare equal (Cafe with acute
e normalizes to the same string as cafe) and folds the grave accent to the
ASCII apostrophe, but the curly apostrophe U+2019 is removed by the ASCII
strip before the quote-folding replace can see it, so the curly variant of
a word normalizes to the word with the apostrophe deleted and differs from
the straight-apostrophe variant.  This evaluates the code at the failing
input of the claim. -/
theorem C1_normalize_text_quote_folding :
    normalize_text (String.mk [Char.ofNat 67, Char.ofNat 97, Char.ofNat 102, Char.ofNat 233]) = "cafe"
  ∧ normalize_text "cafe" = "cafe"
  ∧ normalize_text (String.mk [Char.ofNat 100, Char.ofNat 111, Char.ofNat 110, graveChar, Char.ofNat 116])
      = normalize_text (String.mk [Char.ofNat 100, Char.ofNat 111, Char.ofNat 110, asciiApos, Char.ofNat 116])
  ∧ normalize_text (String.mk [Char.ofNat 100, Char.ofNat 111, Char.ofNat 110, curlyApos, Char.ofNat 116]) = "dont"
  ∧ normalize_text (String.mk [Char.ofNat 100, Char.ofNat 111, Char.ofNat 110, asciiApos, Char.ofNat 116])
      = String.mk [Char.ofNat 100, Char.ofNat 111, Char.ofNat 110, asciiApos, Char.ofNat 116]
  ∧ normalize_text (String.mk [Char.ofNat 100, Char.ofNat 111, Char.ofNat 110, curlyApos, Char.ofNat 116])
      ≠ normalize_text (String.mk [Char.ofNat 100, Char.ofNat 111, Char.ofNat 110, asciiApos, Char.ofNat 116]) := by
  refine ⟨rfl, rfl, rfl, rfl, rfl, ?_⟩
  decide

/-- Python `list.index` returns an index within bounds, that index holds
the value searched for, and every earlier index holds a different value. -/
theorem idxOfStr_spec (v : String) (l : List String) (h : v ∈ l) :
    idxOfStr v l < l.length ∧ l.getD (idxOfStr v l) "" = v ∧
      ∀ j, j < idxOfStr v l → l.getD j "" ≠ v := by
  induction l with
  | nil => cases h
  | cons a rest ih =>
    by_cases ha : a = v
    · subst ha
      simp [idxOfStr]
    · have hmem : v ∈ rest := by
        cases h with
        | head => exact absurd rfl ha
        | tail _ h2 => exact h2
      have hb : (a == v) = false := by simp [ha]
      obtain ⟨ih1, ih2, ih3⟩ := ih hmem
      refine ⟨?_, ?_, ?_⟩
      · simp only [List.length_cons]
        simp [idxOfStr, hb]
        omega
      · simpa [idxOfStr, hb] using ih2
      · intro j hj
        simp [idxOfStr, hb] at hj
        match j with
        | 0 => simpa using ha
        | j + 1 =>
          have := ih3 j (by omega)
          simpa using this

/-- The match branch of the resolver loop body: a truthy candidate whose
normalization occurs among the normalized options stores the option at the
first matching index and creates no extra descriptor. -/
theorem resolveEntry_match (f : FillAlg) (e : Entry)
    (hsel : f e.type e.id (optionsToList e.options) e.required e.container_name ≠ "")
    (hopts : optionsToList e.options ≠ [])
    (hmem : normalize_text (f e.type e.id (optionsToList e.options) e.required e.container_name)
        ∈ (optionsToList e.options).map normalize_text) :
    resolveEntry f e =
      ({ e with default_value := Option.some ((optionsToList e.options).getD
          (idxOfStr
            (normalize_text (f e.type e.id (optionsToList e.options) e.required e.container_name))
            ((optionsToList e.options).map normalize_text)) "") },
       Option.none) := by
  have h1 : (f e.type e.id (optionsToList e.options) e.required e.container_name != "") = true := by
    simpa using hsel
  have h2 : (optionsToList e.options).isEmpty = false := by
    simpa [List.isEmpty_iff] using hopts
  have h3 : ((optionsToList e.options).map normalize_text).contains
      (normalize_text (f e.type e.id (optionsToList e.options) e.required e.container_name)) = true := by
    simpa [List.contains, List.elem_iff] using hmem
  simp only [resolveEntry, h1, h2, h3, Bool.not_false, Bool.and_true, Bool.true_and,
    Bool.and_self, if_true, and_self, ite_true]

/-- The no-match branch of the resolver loop body: a truthy candidate whose
normalization occurs among none of the normalized options stores the
other-option sentinel and creates the synthetic response descriptor. -/
theorem resolveEntry_nomatch (f : FillAlg) (e : Entry)
    (hsel : f e.type e.id (optionsToList e.options) e.required e.container_name ≠ "")
    (hopts : optionsToList e.options ≠ [])
    (hmem : normalize_text (f e.type e.id (optionsToList e.options) e.required e.container_name)
        ∉ (optionsToList e.options).map normalize_text) :
    resolveEntry f e =
      ({ e with default_value := Option.some "__other_option__" },
       Option.some
         { id := e.id ++ ".other_option_response"
           container_name := e.container_name ++ " (Other)"
           type := FieldType.text
           required := e.required
           default_value :=
             Option.some (f e.type e.id (optionsToList e.options) e.required e.container_name) }) := by
  have h1 : (f e.type e.id (optionsToList e.options) e.required e.container_name != "") = true := by
    simpa using hsel
  have h2 : (optionsToList e.options).isEmpty = false := by
    simpa [List.isEmpty_iff] using hopts
  have h3 : ((optionsToList e.options).map normalize_text).contains
      (normalize_text (f e.type e.id (optionsToList e.options) e.required e.container_name)) = false := by
    simpa [List.contains, List.elem_iff] using hmem
  simp only [resolveEntry, h1, h2, h3, Bool.not_false, Bool.and_true, Bool.true_and,
    Bool.and_false, Bool.false_and, if_false, ite_true, ite_false]
  simp

/-- The fallthrough branch of the resolver loop body: a falsy candidate or
an empty option list stores the candidate directly. -/
theorem resolveEntry_direct (f : FillAlg) (e : Entry)
    (h : f e.type e.id (optionsToList e.options) e.required e.container_name = "" ∨
        optionsToList e.options = []) :
    resolveEntry f e =
      ({ e with default_value :=
          Option.some (f e.type e.id (optionsToList e.options) e.required e.container_name) },
       Option.none) := by
  cases h with
  | inl h1 =>
    simp only [resolveEntry, h1]
    simp
  | inr h2 =>
    simp only [resolveEntry, h2]
    simp

/-- Running the loop on a one-descriptor list whose descriptor is resolved
without an append. -/
theorem fill_single_noappend (f : FillAlg) (e e2 : Entry)
    (ht : entryTruthyDefault e = false)
    (hr : resolveEntry f e = (e2, Option.none)) :
    fill_form_entries f [e] = [e2] := by
  simp [fill_form_entries, fillLoopFuel, ht, hr]

/-- Running the loop on a one-descriptor list whose descriptor is resolved
with an appended descriptor carrying a truthy default: the loop visits the
appended descriptor and skips it. -/
theorem fill_single_append (f : FillAlg) (e e2 o : Entry)
    (ht : entryTruthyDefault e = false)
    (hr : resolveEntry f e = (e2, Option.some o))
    (hto : entryTruthyDefault o = true) :
    fill_form_entries f [e] = [e2, o] := by
  simp [fill_form_entries, fillLoopFuel, ht, hr, hto]

theorem getD_map_normalize (l : List String) (j : Nat) (hj : j < l.length) :
    (l.map normalize_text).getD j "" = normalize_text (l.getD j "") := by
  rw [List.getD_eq_getElem (l.map normalize_text) "" (by simpa using hj),
    List.getD_eq_getElem l "" hj, List.getElem_map]

/-- C2 (amended): for a descriptor with a non-empty options list and no
pre-set default, when the fill strategy returns a non-empty candidate whose
normalization equals the normalization of some option, the resolver stores
the original (unnormalized, original-casing) text of the first such
matching option as the default, and appends no other-option-response
descriptor.  The source additionally requires the candidate to be truthy
(non-empty); an empty candidate takes the direct-store branch instead, as
the counterexample shows. -/
theorem C2_match_stores_first_original_option (f : FillAlg) (e : Entry)
    (opts : List String) (v : String)
    (ho : optionsToList e.options = opts)
    (hd : e.default_value = Option.none)
    (hv : f e.type e.id opts e.required e.container_name = v)
    (hopts : opts ≠ [])
    (hne : v ≠ "")
    (hmem : normalize_text v ∈ opts.map normalize_text) :
    ∃ k, k < opts.length
      ∧ normalize_text (opts.getD k "") = normalize_text v
      ∧ (∀ j, j < k → normalize_text (opts.getD j "") ≠ normalize_text v)
      ∧ fill_form_entries f [e] = [{ e with default_value := Option.some (opts.getD k "") }] := by
  subst ho
  subst hv
  obtain ⟨hlt, hget, hfirst⟩ := idxOfStr_spec _ _ hmem
  have hlen : idxOfStr
      (normalize_text (f e.type e.id (optionsToList e.options) e.required e.container_name))
      ((optionsToList e.options).map normalize_text) < (optionsToList e.options).length := by
    simpa using hlt
  refine ⟨_, hlen, ?_, ?_, ?_⟩
  · rw [← getD_map_normalize _ _ hlen]
    exact hget
  · intro j hj
    rw [← getD_map_normalize _ _ (Nat.lt_trans hj hlen)]
    exact hfirst j hj
  · have ht : entryTruthyDefault e = false := by
      simp [entryTruthyDefault, hd]
    exact fill_single_noappend f e _ ht (resolveEntry_match f e hne hopts hmem)

/-- C2 counterexample: with options containing a single all-whitespace
option and a fill strategy returning the empty string, the normalized
candidate equals the normalized option, yet the resolver stores the raw
empty candidate (the direct-store branch, because the empty candidate is
falsy) instead of the original matching option text. -/
theorem C2_counterexample :
    normalize_text "" = normalize_text " "
  ∧ fill_form_entries (fun _ _ _ _ _ => "")
      [⟨"q1", "Q", FieldType.tid 2, false, Option.none, EntryOptions.list [" "], Option.none⟩]
      = [⟨"q1", "Q", FieldType.tid 2, false, Option.none, EntryOptions.list [" "], Option.some ""⟩]
  ∧ Option.some ("" : String) ≠ Option.some " " := by
  refine ⟨rfl, by decide, by decide⟩

/-- C2 witness: the Red-Green-Blue example of the spec. -/
theorem C2_match_witness :
    ∃ k, k < (["Red", "Green", "Blue"] : List String).length
      ∧ normalize_text ((["Red", "Green", "Blue"] : List String).getD k "") = normalize_text "blue"
      ∧ (∀ j, j < k →
          normalize_text ((["Red", "Green", "Blue"] : List String).getD j "") ≠ normalize_text "blue")
      ∧ fill_form_entries (fun _ _ _ _ _ => "blue")
          [⟨"77", "Color", FieldType.tid 2, true, Option.none,
            EntryOptions.list ["Red", "Green", "Blue"], Option.none⟩]
        = [⟨"77", "Color", FieldType.tid 2, true, Option.none,
            EntryOptions.list ["Red", "Green", "Blue"], Option.some "Blue"⟩] := by
  have h := C2_match_stores_first_original_option (fun _ _ _ _ _ => "blue")
    ⟨"77", "Color", FieldType.tid 2, true, Option.none,
      EntryOptions.list ["Red", "Green", "Blue"], Option.none⟩
    ["Red", "Green", "Blue"] "blue" rfl rfl rfl (by decide) (by decide) (by decide)
  obtain ⟨k, hk, hnorm, hfirst, hfill⟩ := h
  have hkval : k = 2 := by
    match k, hk with
    | 0, _ => exact absurd hnorm (by decide)
    | 1, _ => exact absurd hnorm (by decide)
    | 2, _ => rfl
  subst hkval
  exact ⟨2, by decide, hnorm, hfirst, hfill⟩

/-- C3 (amended): for a descriptor with a non-empty options list and no
pre-set default, when the fill strategy returns a non-empty candidate whose
normalization matches no normalized option, the resolver stores the
other-option sentinel as the default and appends exactly one synthetic
descriptor whose id is the original id with the other-option-response
suffix, whose type is the synthetic text tag, whose required flag equals
the original one, and whose default is the raw candidate.  The source
additionally requires the candidate to be truthy (non-empty); an empty
candidate takes the direct-store branch instead, as the counterexample
shows. -/
theorem C3_nomatch_appends_other_option (f : FillAlg) (e : Entry)
    (opts : List String) (v : String)
    (ho : optionsToList e.options = opts)
    (hd : e.default_value = Option.none)
    (hv : f e.type e.id opts e.required e.container_name = v)
    (hopts : opts ≠ [])
    (hne : v ≠ "")
    (hmem : normalize_text v ∉ opts.map normalize_text) :
    fill_form_entries f [e] =
      [{ e with default_value := Option.some "__other_option__" },
       { id := e.id ++ ".other_option_response"
         container_name := e.container_name ++ " (Other)"
         type := FieldType.text
         required := e.required
         default_value := Option.some v }] := by
  subst ho
  subst hv
  have ht : entryTruthyDefault e = false := by
    simp [entryTruthyDefault, hd]
  have hto : entryTruthyDefault
      { id := e.id ++ ".other_option_response"
        container_name := e.container_name ++ " (Other)"
        type := FieldType.text
        required := e.required
        default_value :=
          Option.some (f e.type e.id (optionsToList e.options) e.required e.container_name) } = true := by
    simp [entryTruthyDefault]
    exact hne
  exact fill_single_append f e _ _ ht (resolveEntry_nomatch f e hne hopts hmem) hto

/-- C3 counterexample: with options and a fill strategy returning the empty
string (no normalized match exists), the resolver stores the raw empty
candidate directly and appends nothing, instead of storing the sentinel and
appending the other-option-response descriptor required by the claim. -/
theorem C3_counterexample :
    normalize_text "" ∉ (["Red"] : List String).map normalize_text
  ∧ fill_form_entries (fun _ _ _ _ _ => "")
      [⟨"q2", "Q", FieldType.tid 2, false, Option.none, EntryOptions.list ["Red"], Option.none⟩]
      = [⟨"q2", "Q", FieldType.tid 2, false, Option.none, EntryOptions.list ["Red"], Option.some ""⟩]
  ∧ Option.some ("" : String) ≠ Option.some "__other_option__" := by
  refine ⟨by decide, by decide, by decide⟩

/-- C3 witness: the Red-Green versus Purple example of the spec. -/
theorem C3_nomatch_witness :
    fill_form_entries (fun _ _ _ _ _ => "Purple")
      [⟨"42", "Color", FieldType.tid 2, true, Option.none,
        EntryOptions.list ["Red", "Green"], Option.none⟩]
      = [⟨"42", "Color", FieldType.tid 2, true, Option.none,
          EntryOptions.list ["Red", "Green"], Option.some "__other_option__"⟩,
         ⟨"42.other_option_response", "Color (Other)", FieldType.text, true, Option.none,
          EntryOptions.none, Option.some "Purple"⟩] := by
  have h := C3_nomatch_appends_other_option (fun _ _ _ _ _ => "Purple")
    ⟨"42", "Color", FieldType.tid 2, true, Option.none,
      EntryOptions.list ["Red", "Green"], Option.none⟩
    ["Red", "Green"] "Purple" rfl rfl rfl (by decide) (by decide) (by decide)
  exact h

/-- Whatever branch the loop body takes, the descriptor left at the visited
position is the input descriptor with some default value stored. -/
theorem resolveEntry_fst_shape (f : FillAlg) (e : Entry) :
    ∃ d, (resolveEntry f e).1 = { e with default_value := Option.some d } := by
  by_cases hsel : f e.type e.id (optionsToList e.options) e.required e.container_name = ""
  · exact ⟨_, by rw [resolveEntry_direct f e (Or.inl hsel)]⟩
  · by_cases hopt : optionsToList e.options = []
    · exact ⟨_, by rw [resolveEntry_direct f e (Or.inr hopt)]⟩
    · by_cases hmem : normalize_text
          (f e.type e.id (optionsToList e.options) e.required e.container_name)
          ∈ (optionsToList e.options).map normalize_text
      · exact ⟨_, by rw [resolveEntry_match f e hsel hopt hmem]⟩
      · exact ⟨_, by rw [resolveEntry_nomatch f e hsel hopt hmem]⟩

/-- A descriptor appended by the loop body carries a truthy default at the
moment it is appended, and its id is the visited id with the
other-option-response suffix. -/
theorem resolveEntry_appended (f : FillAlg) (e e2 o : Entry)
    (h : resolveEntry f e = (e2, Option.some o)) :
    entryTruthyDefault o = true ∧ o.id = e.id ++ ".other_option_response" := by
  by_cases hsel : f e.type e.id (optionsToList e.options) e.required e.container_name = ""
  · rw [resolveEntry_direct f e (Or.inl hsel)] at h
    exact absurd (congrArg Prod.snd h) (by simp)
  · by_cases hopt : optionsToList e.options = []
    · rw [resolveEntry_direct f e (Or.inr hopt)] at h
      exact absurd (congrArg Prod.snd h) (by simp)
    · by_cases hmem : normalize_text
          (f e.type e.id (optionsToList e.options) e.required e.container_name)
          ∈ (optionsToList e.options).map normalize_text
      · rw [resolveEntry_match f e hsel hopt hmem] at h
        exact absurd (congrArg Prod.snd h) (by simp)
      · rw [resolveEntry_nomatch f e hsel hopt hmem] at h
        have ho := congrArg Prod.snd h
        simp only [Option.some.injEq] at ho
        refine ⟨?_, ?_⟩
        · rw [← ho]
          simpa [entryTruthyDefault] using hsel
        · rw [← ho]

/-- The loop body does not read the default value of the visited
descriptor: resolving after overwriting the default gives the same result
as resolving the original. -/
theorem resolveEntry_default_irrelevant (f : FillAlg) (e : Entry) (d : Option String) :
    resolveEntry f { e with default_value := d } = resolveEntry f e := rfl

/-- A descriptor that has just been resolved is stable: it either carries a
truthy default, or resolving it again reproduces it and appends nothing. -/
theorem resolveEntry_fst_stable (f : FillAlg) (e : Entry) :
    entryTruthyDefault (resolveEntry f e).1 = true ∨
      resolveEntry f (resolveEntry f e).1 = ((resolveEntry f e).1, Option.none) := by
  by_cases hsel : f e.type e.id (optionsToList e.options) e.required e.container_name = ""
  · right
    rw [resolveEntry_direct f e (Or.inl hsel), resolveEntry_default_irrelevant,
      resolveEntry_direct f e (Or.inl hsel)]
  · by_cases hopt : optionsToList e.options = []
    · right
      rw [resolveEntry_direct f e (Or.inr hopt), resolveEntry_default_irrelevant,
        resolveEntry_direct f e (Or.inr hopt)]
    · by_cases hmem : normalize_text
          (f e.type e.id (optionsToList e.options) e.required e.container_name)
          ∈ (optionsToList e.options).map normalize_text
      · right
        rw [resolveEntry_match f e hsel hopt hmem, resolveEntry_default_irrelevant,
          resolveEntry_match f e hsel hopt hmem]
      · left
        rw [resolveEntry_nomatch f e hsel hopt hmem]
        simp [entryTruthyDefault]

theorem stepEntry_id (f : FillAlg) (e : Entry) : (stepEntry f e).id = e.id := by
  unfold stepEntry
  by_cases ht : entryTruthyDefault e = true
  · simp [ht]
  · obtain ⟨d, hd⟩ := resolveEntry_fst_shape f e
    simp [ht, hd]

theorem stepEntry_stable (f : FillAlg) (e : Entry) :
    entryTruthyDefault (stepEntry f e) = true ∨
      resolveEntry f (stepEntry f e) = (stepEntry f e, Option.none) := by
  unfold stepEntry
  by_cases ht : entryTruthyDefault e = true
  · left
    simp [ht]
  · simp only [ht, if_false]
    exact resolveEntry_fst_stable f e

theorem stepMap_cons (f : FillAlg) (e : Entry) (rest : List Entry) :
    stepMap f (e :: rest) = stepEntry f e :: stepMap f rest := rfl

theorem stepEntry_truthy (f : FillAlg) (e : Entry) (ht : entryTruthyDefault e = true) :
    stepEntry f e = e := by
  simp [stepEntry, ht]

theorem fillMeasure_nil : fillMeasure [] = 0 := rfl

theorem fillMeasure_cons_truthy (e : Entry) (rest : List Entry)
    (ht : entryTruthyDefault e = true) :
    fillMeasure (e :: rest) = fillMeasure rest + 1 := by
  simp [fillMeasure, List.filter_cons, ht]
  omega

theorem fillMeasure_cons_falsy (e : Entry) (rest : List Entry)
    (ht : entryTruthyDefault e = false) :
    fillMeasure (e :: rest) = fillMeasure rest + 2 := by
  simp [fillMeasure, List.filter_cons, ht]
  omega

theorem fillMeasure_append_truthy (rest : List Entry) (o : Entry)
    (ht : entryTruthyDefault o = true) :
    fillMeasure (rest ++ [o]) = fillMeasure rest + 1 := by
  simp [fillMeasure, List.filter_append, List.filter_cons, ht]
  omega

theorem fillMeasure_le (l : List Entry) : fillMeasure l ≤ 2 * l.length := by
  have := List.length_filter_le (fun e => !entryTruthyDefault e) l
  simp only [fillMeasure]
  omega

theorem fillLoopFuel_nil (f : FillAlg) (fuel : Nat) (done : List Entry) :
    fillLoopFuel f fuel done [] = done := by
  cases fuel <;> simp [fillLoopFuel]

theorem fillMeasure_pos (e : Entry) (rest : List Entry) :
    1 ≤ fillMeasure (e :: rest) := by
  simp only [fillMeasure, List.length_cons]
  omega

/-- The loop result does not depend on the fuel once the fuel dominates the
loop measure. -/
theorem fillLoopFuel_irrel (f : FillAlg) :
    ∀ fuel1 fuel2 done todo, fillMeasure todo ≤ fuel1 → fillMeasure todo ≤ fuel2 →
      fillLoopFuel f fuel1 done todo = fillLoopFuel f fuel2 done todo := by
  intro fuel1
  induction fuel1 with
  | zero =>
    intro fuel2 done todo h1 h2
    have ht : todo = [] := by
      cases todo with
      | nil => rfl
      | cons e rest => exact absurd h1 (by have := fillMeasure_pos e rest; omega)
    subst ht
    rw [fillLoopFuel_nil, fillLoopFuel_nil]
  | succ fuel ih =>
    intro fuel2 done todo h1 h2
    cases todo with
    | nil => rw [fillLoopFuel_nil, fillLoopFuel_nil]
    | cons e rest =>
      cases fuel2 with
      | zero => exact absurd h2 (by have := fillMeasure_pos e rest; omega)
      | succ fuel2 =>
        by_cases ht : entryTruthyDefault e = true
        · have hr := fillMeasure_cons_truthy e rest ht
          simp only [fillLoopFuel, ht, if_true]
          exact ih fuel2 (done ++ [e]) rest (by omega) (by omega)
        · have htf : entryTruthyDefault e = false := eq_false_of_ne_true ht
          have hr := fillMeasure_cons_falsy e rest htf
          simp only [fillLoopFuel, htf, Bool.false_eq_true, if_false]
          cases hre : resolveEntry f e with
          | mk e2 opt =>
            cases opt with
            | none => exact ih fuel2 (done ++ [e2]) rest (by omega) (by omega)
            | some o =>
              have hto := resolveEntry_appended f e e2 o hre
              have hm := fillMeasure_append_truthy rest o hto.1
              exact ih fuel2 (done ++ [e2]) (rest ++ [o]) (by omega) (by omega)

/-- Structure of the loop result: the visited prefix, then the input
descriptors each resolved in place, then the appended synthetic
descriptors, every one of which carries a truthy default and derives its id
from a defaultless input descriptor. -/
theorem fillLoopFuel_decomp (f : FillAlg) :
    ∀ fuel done todo, fillMeasure todo ≤ fuel →
      ∃ app, fillLoopFuel f fuel done todo = done ++ stepMap f todo ++ app
        ∧ ∀ x ∈ app, entryTruthyDefault x = true
          ∧ ∃ e, e ∈ todo ∧ entryTruthyDefault e = false
              ∧ x.id = e.id ++ ".other_option_response" := by
  intro fuel
  induction fuel with
  | zero =>
    intro done todo h
    have ht : todo = [] := by
      cases todo with
      | nil => rfl
      | cons e rest => exact absurd h (by have := fillMeasure_pos e rest; omega)
    subst ht
    exact ⟨[], by simp [fillLoopFuel_nil, stepMap], by simp⟩
  | succ fuel ih =>
    intro done todo h
    cases todo with
    | nil => exact ⟨[], by simp [fillLoopFuel_nil, stepMap], by simp⟩
    | cons e rest =>
      by_cases ht : entryTruthyDefault e = true
      · have hr := fillMeasure_cons_truthy e rest ht
        obtain ⟨app, heq, happ⟩ := ih (done ++ [e]) rest (by omega)
        refine ⟨app, ?_, ?_⟩
        · simp only [fillLoopFuel, ht, if_true]
          rw [heq, stepMap_cons, stepEntry_truthy f e ht]
          simp [List.append_assoc]
        · intro x hx
          obtain ⟨h1, e1, he1, h2, h3⟩ := happ x hx
          exact ⟨h1, e1, List.mem_cons_of_mem e he1, h2, h3⟩
      · have htf : entryTruthyDefault e = false := eq_false_of_ne_true ht
        have hr := fillMeasure_cons_falsy e rest htf
        cases hre : resolveEntry f e with
        | mk e2 opt =>
          have hse : stepEntry f e = e2 := by simp [stepEntry, htf, hre]
          cases opt with
          | none =>
            obtain ⟨app, heq, happ⟩ := ih (done ++ [e2]) rest (by omega)
            refine ⟨app, ?_, ?_⟩
            · simp only [fillLoopFuel, htf, Bool.false_eq_true, if_false, hre]
              rw [heq, stepMap_cons, hse]
              simp [List.append_assoc]
            · intro x hx
              obtain ⟨h1, e1, he1, h2, h3⟩ := happ x hx
              exact ⟨h1, e1, List.mem_cons_of_mem e he1, h2, h3⟩
          | some o =>
            have hto := resolveEntry_appended f e e2 o hre
            have hm := fillMeasure_append_truthy rest o hto.1
            obtain ⟨app, heq, happ⟩ := ih (done ++ [e2]) (rest ++ [o]) (by omega)
            refine ⟨o :: app, ?_, ?_⟩
            · simp only [fillLoopFuel, htf, Bool.false_eq_true, if_false, hre]
              rw [heq, stepMap_cons, hse]
              have hsm : stepMap f (rest ++ [o]) = stepMap f rest ++ [o] := by
                simp [stepMap, stepEntry_truthy f o hto.1]
              rw [hsm]
              simp [List.append_assoc]
            · intro x hx
              cases hx with
              | head =>
                exact ⟨hto.1, e, List.mem_cons_self e rest, htf, hto.2⟩
              | tail _ hx2 =>
                obtain ⟨h1, e1, he1, h2, h3⟩ := happ x hx2
                rcases List.mem_append.mp he1 with he1a | he1b
                · exact ⟨h1, e1, List.mem_cons_of_mem e he1a, h2, h3⟩
                · have : e1 = o := by simpa using he1b
                  subst this
                  exact absurd hto.1 (by simp [h2])

/-- The loop output length is bounded by the visited prefix plus the loop
measure of the remaining descriptors. -/
theorem fillLoopFuel_length (f : FillAlg) :
    ∀ fuel done todo, fillMeasure todo ≤ fuel →
      (fillLoopFuel f fuel done todo).length ≤ done.length + fillMeasure todo := by
  intro fuel
  induction fuel with
  | zero =>
    intro done todo h
    have ht : todo = [] := by
      cases todo with
      | nil => rfl
      | cons e rest => exact absurd h (by have := fillMeasure_pos e rest; omega)
    subst ht
    simp [fillLoopFuel_nil]
  | succ fuel ih =>
    intro done todo h
    cases todo with
    | nil => simp [fillLoopFuel_nil]
    | cons e rest =>
      by_cases ht : entryTruthyDefault e = true
      · have hr := fillMeasure_cons_truthy e rest ht
        have := ih (done ++ [e]) rest (by omega)
        simp only [fillLoopFuel, ht, if_true]
        simp only [List.length_append, List.length_singleton] at this
        omega
      · have htf : entryTruthyDefault e = false := eq_false_of_ne_true ht
        have hr := fillMeasure_cons_falsy e rest htf
        simp only [fillLoopFuel, htf, Bool.false_eq_true, if_false]
        cases hre : resolveEntry f e with
        | mk e2 opt =>
          cases opt with
          | none =>
            have := ih (done ++ [e2]) rest (by omega)
            simp only [List.length_append, List.length_singleton] at this
            dsimp only
            omega
          | some o =>
            have hto := resolveEntry_appended f e e2 o hre
            have hm := fillMeasure_append_truthy rest o hto.1
            have := ih (done ++ [e2]) (rest ++ [o]) (by omega)
            simp only [List.length_append, List.length_singleton] at this
            dsimp only
            omega

/-- On a list of stable descriptors the loop is the identity (it only moves
descriptors from the unvisited to the visited side). -/
theorem fillLoopFuel_stable (f : FillAlg) :
    ∀ fuel done todo, fillMeasure todo ≤ fuel →
      (∀ x ∈ todo, entryTruthyDefault x = true ∨ resolveEntry f x = (x, Option.none)) →
      fillLoopFuel f fuel done todo = done ++ todo := by
  intro fuel
  induction fuel with
  | zero =>
    intro done todo h hs
    have ht : todo = [] := by
      cases todo with
      | nil => rfl
      | cons e rest => exact absurd h (by have := fillMeasure_pos e rest; omega)
    subst ht
    simp [fillLoopFuel_nil]
  | succ fuel ih =>
    intro done todo h hs
    cases todo with
    | nil => simp [fillLoopFuel_nil]
    | cons e rest =>
      have hsrest : ∀ x ∈ rest, entryTruthyDefault x = true ∨ resolveEntry f x = (x, Option.none) :=
        fun x hx => hs x (List.mem_cons_of_mem e hx)
      by_cases ht : entryTruthyDefault e = true
      · have hr := fillMeasure_cons_truthy e rest ht
        simp only [fillLoopFuel, ht, if_true]
        rw [ih (done ++ [e]) rest (by omega) hsrest]
        simp
      · have htf : entryTruthyDefault e = false := eq_false_of_ne_true ht
        have hre : resolveEntry f e = (e, Option.none) := by
          rcases hs e (List.mem_cons_self e rest) with h1 | h2
          · exact absurd h1 ht
          · exact h2
        have hr := fillMeasure_cons_falsy e rest htf
        simp only [fillLoopFuel, htf, Bool.false_eq_true, if_false, hre]
        rw [ih (done ++ [e]) rest (by omega) hsrest]
        simp

theorem strEndsWith_append_right (s t1 t2 : String) (h : strEndsWith s (t1 ++ t2)) :
    strEndsWith s t2 := by
  unfold strEndsWith at *
  rw [String.data_append] at h
  exact (List.suffix_append t1.data t2.data).trans h

theorem strEndsWith_append_cancel (a w v : String) :
    strEndsWith (a ++ v) (w ++ v) ↔ strEndsWith a w := by
  unfold strEndsWith
  rw [String.data_append, String.data_append]
  constructor
  · rintro ⟨t, ht⟩
    rw [← List.append_assoc] at ht
    exact ⟨t, List.append_cancel_right ht⟩
  · rintro ⟨t, ht⟩
    refine ⟨t, ?_⟩
    rw [← List.append_assoc, ht]

/-- Decomposition of a full resolver run: the input descriptors resolved in
place, followed by the appended synthetic descriptors. -/
theorem fill_form_entries_decomp (f : FillAlg) (l : List Entry) :
    ∃ app, fill_form_entries f l = stepMap f l ++ app
      ∧ ∀ x ∈ app, entryTruthyDefault x = true
        ∧ ∃ e, e ∈ l ∧ entryTruthyDefault e = false
            ∧ x.id = e.id ++ ".other_option_response" := by
  obtain ⟨app, heq, happ⟩ := fillLoopFuel_decomp f (2 * l.length) [] l
    (le_trans (fillMeasure_le l) (le_refl _))
  refine ⟨app, ?_, happ⟩
  simpa [fill_form_entries] using heq

/-- Everything beyond the input length in the resolver output is an
appended synthetic descriptor: it carries a truthy default and derives its
id from a defaultless input descriptor. -/
theorem fill_drop_app (f : FillAlg) (l : List Entry) (x : Entry)
    (hx : x ∈ (fill_form_entries f l).drop l.length) :
    entryTruthyDefault x = true ∧
      ∃ e, e ∈ l ∧ entryTruthyDefault e = false
        ∧ x.id = e.id ++ ".other_option_response" := by
  obtain ⟨app, heq, happ⟩ := fill_form_entries_decomp f l
  rw [heq] at hx
  have hlen : (stepMap f l).length = l.length := by simp [stepMap]
  rw [← hlen, List.drop_left] at hx
  exact happ x hx

/-- Every member of the resolver output is either an input descriptor
resolved in place or an appended synthetic descriptor. -/
theorem fill_mem_cases (f : FillAlg) (l : List Entry) (x : Entry)
    (hx : x ∈ fill_form_entries f l) :
    (∃ e, e ∈ l ∧ x = stepEntry f e) ∨
      (entryTruthyDefault x = true ∧
        ∃ e, e ∈ l ∧ entryTruthyDefault e = false
          ∧ x.id = e.id ++ ".other_option_response") := by
  obtain ⟨app, heq, happ⟩ := fill_form_entries_decomp f l
  rw [heq] at hx
  rcases List.mem_append.mp hx with hx1 | hx2
  · obtain ⟨e, he, hstep⟩ := List.mem_map.mp hx1
    exact Or.inl ⟨e, he, hstep.symm⟩
  · exact Or.inr (happ x hx2)

/-- C4 (amended): a descriptor whose default is truthy (a non-empty string)
is never overwritten and keeps its position; synthetic descriptors are
appended only for descriptors whose default is not truthy; and running the
resolver twice on a list equals running it once.  As literally stated the
claim also covers a descriptor whose pre-set default is the empty string,
which the truthiness test treats as absent, so such a descriptor is
re-resolved: see the counterexample. -/
theorem C4_resolver_idempotent :
    (∀ (f : FillAlg) (l : List Entry) (i : Nat) (e : Entry),
        l[i]? = Option.some e → entryTruthyDefault e = true →
        (fill_form_entries f l)[i]? = Option.some e)
  ∧ (∀ (f : FillAlg) (l : List Entry) (x : Entry),
        x ∈ (fill_form_entries f l).drop l.length →
        entryTruthyDefault x = true ∧
          ∃ e, e ∈ l ∧ entryTruthyDefault e = false
            ∧ x.id = e.id ++ ".other_option_response")
  ∧ (∀ (f : FillAlg) (l : List Entry),
        fill_form_entries f (fill_form_entries f l) = fill_form_entries f l) := by
  refine ⟨?_, ?_, ?_⟩
  · intro f l i e hi ht
    obtain ⟨app, heq, happ⟩ := fill_form_entries_decomp f l
    obtain ⟨hlt, hget⟩ := List.getElem?_eq_some.mp hi
    have hmap : (stepMap f l)[i]? = Option.some e := by
      simp [stepMap, List.getElem?_map, hi, stepEntry_truthy f e ht]
    rw [heq, List.getElem?_append_left (by simpa [stepMap] using hlt), hmap]
  · intro f l x hx
    exact fill_drop_app f l x hx
  · intro f l
    have hstable : ∀ x ∈ fill_form_entries f l,
        entryTruthyDefault x = true ∨ resolveEntry f x = (x, Option.none) := by
      intro x hx
      rcases fill_mem_cases f l x hx with ⟨e, _, hstep⟩ | ⟨h1, _⟩
      · rw [hstep]
        exact stepEntry_stable f e
      · exact Or.inl h1
    calc fill_form_entries f (fill_form_entries f l)
        = fillLoopFuel f (2 * (fill_form_entries f l).length) [] (fill_form_entries f l) := rfl
      _ = [] ++ fill_form_entries f l :=
          fillLoopFuel_stable f _ [] _ (fillMeasure_le _) hstable
      _ = fill_form_entries f l := by simp

/-- C4 counterexample: a descriptor that already carries the default value
(the empty string) is re-resolved and its default is overwritten, because
the skip test uses Python truthiness and the empty string is falsy. -/
theorem C4_counterexample :
    (⟨"q3", "Q", FieldType.tid 0, false, Option.none, EntryOptions.none,
        Option.some ""⟩ : Entry).default_value = Option.some ""
  ∧ fill_form_entries (fun _ _ _ _ _ => "x")
      [⟨"q3", "Q", FieldType.tid 0, false, Option.none, EntryOptions.none, Option.some ""⟩]
      = [⟨"q3", "Q", FieldType.tid 0, false, Option.none, EntryOptions.none, Option.some "x"⟩]
  ∧ Option.some ("" : String) ≠ Option.some "x" := by
  refine ⟨rfl, by decide, by decide⟩

/-- C4 witness: a descriptor with a non-empty default passes through a
resolver run unchanged at its position. -/
theorem C4_resolver_idempotent_witness :
    (fill_form_entries (fun _ _ _ _ _ => "x")
      [⟨"p", "P", FieldType.required, true, Option.none,
        EntryOptions.str "email address", Option.some "kept"⟩])[0]?
      = Option.some ⟨"p", "P", FieldType.required, true, Option.none,
          EntryOptions.str "email address", Option.some "kept"⟩ :=
  C4_resolver_idempotent.1 (fun _ _ _ _ _ => "x")
    [⟨"p", "P", FieldType.required, true, Option.none,
      EntryOptions.str "email address", Option.some "kept"⟩]
    0
    ⟨"p", "P", FieldType.required, true, Option.none,
      EntryOptions.str "email address", Option.some "kept"⟩
    (by decide) (by decide)

/-- C10: invariants of the list-mutating resolver loop.  First, a
descriptor appended by a loop iteration carries a truthy default at the
moment it is appended, and its id is the visited id with the
other-option-response suffix.  Second, fuel equal to twice the input length
suffices for the loop on every finite input list (termination with a
linear iteration bound).  Third, the output has at most one appended
descriptor per input descriptor.  Fourth, every descriptor beyond the input
length carries a truthy default, so when the loop reaches it, it is
skipped, never re-resolved.  Fifth, when no input id ends in the
other-option-response suffix, no output id ends in the doubled suffix. -/
theorem C10_fill_form_entries_iteration_invariants :
    (∀ (f : FillAlg) (e e2 o : Entry), resolveEntry f e = (e2, Option.some o) →
        entryTruthyDefault o = true ∧ o.id = e.id ++ ".other_option_response")
  ∧ (∀ (f : FillAlg) (l : List Entry) (fuel : Nat), 2 * l.length ≤ fuel →
        fillLoopFuel f fuel [] l = fill_form_entries f l)
  ∧ (∀ (f : FillAlg) (l : List Entry),
        (fill_form_entries f l).length ≤ 2 * l.length)
  ∧ (∀ (f : FillAlg) (l : List Entry) (x : Entry),
        x ∈ (fill_form_entries f l).drop l.length → entryTruthyDefault x = true)
  ∧ (∀ (f : FillAlg) (l : List Entry),
        (∀ e ∈ l, ¬ strEndsWith e.id ".other_option_response") →
        ∀ x ∈ fill_form_entries f l,
          ¬ strEndsWith x.id ".other_option_response.other_option_response") := by
  refine ⟨?_, ?_, ?_, ?_, ?_⟩
  · intro f e e2 o h
    exact resolveEntry_appended f e e2 o h
  · intro f l fuel hfuel
    exact fillLoopFuel_irrel f fuel (2 * l.length) [] l
      (le_trans (fillMeasure_le l) hfuel) (fillMeasure_le l)
  · intro f l
    have := fillLoopFuel_length f (2 * l.length) [] l (fillMeasure_le l)
    have h2 := fillMeasure_le l
    simp only [fill_form_entries]
    simp only [List.length_nil] at this
    omega
  · intro f l x hx
    exact (fill_drop_app f l x hx).1
  · intro f l hids x hx
    have hsplit : (".other_option_response.other_option_response" : String)
        = ".other_option_response" ++ ".other_option_response" := rfl
    rcases fill_mem_cases f l x hx with ⟨e, he, hstep⟩ | ⟨_, e, he, _, hid⟩
    · intro hcon
      apply hids e he
      rw [hsplit] at hcon
      rw [hstep, stepEntry_id] at hcon
      exact strEndsWith_append_right e.id _ _ hcon
    · intro hcon
      apply hids e he
      rw [hsplit, hid] at hcon
      exact (strEndsWith_append_cancel e.id ".other_option_response"
        ".other_option_response").mp hcon

/-- C10 witness: on a concrete one-descriptor list any fuel at least twice
the length reproduces the resolver run. -/
theorem C10_fill_loop_witness :
    fillLoopFuel (fun _ _ _ _ _ => "a") 5 []
      [⟨"w", "W", FieldType.tid 0, false, Option.none, EntryOptions.none, Option.none⟩]
      = fill_form_entries (fun _ _ _ _ _ => "a")
          [⟨"w", "W", FieldType.tid 0, false, Option.none, EntryOptions.none, Option.none⟩] :=
  C10_fill_form_entries_iteration_invariants.2.1 (fun _ _ _ _ _ => "a")
    [⟨"w", "W", FieldType.tid 0, false, Option.none, EntryOptions.none, Option.none⟩]
    5 (by decide)

/-- Every descriptor a sub-entry contributes has the six-key shape of the
dict literal in `parse_entry`. -/
theorem parseSub_shape (oR : Bool) (en et sub : JVal) (res : List JVal)
    (h : parseSub oR en et sub = Except.ok res) :
    ∀ x ∈ res, questionShaped x := by
  intro x hx
  unfold parseSub at h
  repeat' (first | split at h | dsimp only at h)
  all_goals first
    | (cases h; done)
    | (injection h with h; subst h;
        rw [List.mem_singleton] at hx; subst hx; exact ⟨_, _, _, _, _, _, rfl⟩)
    | (injection h with h; subst h; cases hx)

theorem parseSubs_shape (oR : Bool) (en et : JVal) (subs : List JVal)
    (res : List JVal) (h : parseSubs oR en et subs = Except.ok res) :
    ∀ x ∈ res, questionShaped x := by
  induction subs generalizing res with
  | nil =>
    unfold parseSubs at h
    injection h with h
    subst h
    intro x hx
    cases hx
  | cons s rest ih =>
    unfold parseSubs at h
    split at h
    · cases h
    · split at h
      · cases h
      · injection h with h
        subst h
        intro x hx
        rcases List.mem_append.mp hx with hx1 | hx2
        · exact parseSub_shape oR en et s _ (by assumption) x hx1
        · exact ih _ (by assumption) x hx2

theorem parse_entry_shape (oR : Bool) (entry : JVal) (res : List JVal)
    (h : parse_entry oR entry = Except.ok res) :
    ∀ x ∈ res, questionShaped x := by
  unfold parse_entry at h
  repeat' split at h
  all_goals first
    | (cases h; done)
    | exact parseSubs_shape _ _ _ _ _ h
    | (injection h with h; subst h; intro x hx; cases hx)

/-- The main loop returns the concatenated question descriptors (all
six-key shaped) and counts exactly the page-break entries. -/
theorem parseLoop_spec (oR : Bool) (qs : List JVal) (ps : List JVal) (c : Nat)
    (h : parseLoop oR qs = Except.ok (ps, c)) :
    (∀ x ∈ ps, questionShaped x) ∧ c = qs.countP isPageBreak := by
  induction qs generalizing ps c with
  | nil =>
    unfold parseLoop at h
    injection h with h
    rw [Prod.mk.injEq] at h
    obtain ⟨h1, h2⟩ := h
    subst h1
    subst h2
    exact ⟨fun x hx => absurd hx (List.not_mem_nil x), rfl⟩
  | cons q rest ih =>
    unfold parseLoop at h
    split at h
    · cases h
    · rename_i t ht
      have hpb : isPageBreak q = jvalEqInt t 8 := by
        simp [isPageBreak, ht]
      split at h
      · rename_i h8
        split at h
        · cases h
        · rename_i ps' c' hrest
          injection h with h
          rw [Prod.mk.injEq] at h
          obtain ⟨h1, h2⟩ := h
          subst h1
          subst h2
          obtain ⟨ihs, ihc⟩ := ih _ _ hrest
          refine ⟨ihs, ?_⟩
          rw [List.countP_cons, hpb, ihc]
          simp [h8]
      · rename_i h8
        split at h
        · cases h
        · rename_i infos hinfos
          split at h
          · cases h
          · rename_i ps' c' hrest
            injection h with h
            rw [Prod.mk.injEq] at h
            obtain ⟨h1, h2⟩ := h
            subst h1
            subst h2
            obtain ⟨ihs, ihc⟩ := ih _ _ hrest
            refine ⟨?_, ?_⟩
            · intro x hx
              rcases List.mem_append.mp hx with hx1 | hx2
              · exact parse_entry_shape oR q _ hinfos x hx1
              · exact ihs x hx2
            · rw [List.countP_cons, hpb, ihc]
              simp [h8]

theorem questionShaped_ne_email (x : JVal) (h : questionShaped x) :
    x ≠ emailObj := by
  obtain ⟨a, b, c, d, n, o, rfl⟩ := h
  intro hcon
  simp [emailObj] at hcon

theorem questionShaped_ne_pageHistory (x : JVal) (M : Nat) (h : questionShaped x) :
    x ≠ pageHistoryObj M := by
  obtain ⟨a, b, c, d, n, o, rfl⟩ := h
  intro hcon
  simp [pageHistoryObj] at hcon

theorem email_ne_pageHistory (M : Nat) : emailObj ≠ pageHistoryObj M := by
  intro hcon
  simp [emailObj, pageHistoryObj] at hcon

/-- C7 (amended): the schema guard returns an absent result without
raising whenever the truthiness chain itself can be evaluated: when the
dump is falsy, when its index-1 element exists but is falsy, and when the
index-1 element of that exists but is falsy.  When an indexing step fails
(for example a one-element top-level array) an IndexError escapes instead,
as the counterexample shows; the logging side effect is outside the
embedding. -/
theorem C7_missing_question_array_graceful (onlyRequired : Bool) (v : JVal) :
    (jtruthy v = false → parse_form_entries onlyRequired v = Except.ok Option.none)
  ∧ (∀ v1, pyIndex v 1 = Except.ok v1 → jtruthy v1 = false →
      parse_form_entries onlyRequired v = Except.ok Option.none)
  ∧ (∀ v1 v11, pyIndex v 1 = Except.ok v1 → pyIndex v1 1 = Except.ok v11 →
      jtruthy v11 = false →
      parse_form_entries onlyRequired v = Except.ok Option.none) := by
  refine ⟨?_, ?_, ?_⟩
  · intro hv
    simp [parse_form_entries, hv]
  · intro v1 h1 hv1
    by_cases hv : jtruthy v
    · simp [parse_form_entries, hv, h1, hv1]
    · simp [parse_form_entries, eq_false_of_ne_true hv]
  · intro v1 v11 h1 h11 hv11
    by_cases hv : jtruthy v
    · by_cases hv1 : jtruthy v1
      · simp [parse_form_entries, hv, h1, hv1, h11, hv11]
      · simp [parse_form_entries, hv, h1, eq_false_of_ne_true hv1]
    · simp [parse_form_entries, eq_false_of_ne_true hv]

/-- C7 counterexample: two decoded dumps that lack the question array and
on which the normalizer raises instead of returning an absent result — a
one-element top-level array (index 1 raises IndexError) and a top-level
array whose index-1 element is a number (subscripting it raises
TypeError). -/
theorem C7_counterexample :
    parse_form_entries false (JVal.arr [JVal.num 0]) = Except.error PyErr.indexError
  ∧ parse_form_entries false (JVal.arr [JVal.num 0, JVal.num 5])
      = Except.error PyErr.typeError := ⟨rfl, rfl⟩

/-- C7 witness: a dump whose question-array position holds null is handled
gracefully. -/
theorem C7_graceful_witness :
    parse_form_entries false (JVal.arr [JVal.null, JVal.arr [JVal.null, JVal.null]])
      = Except.ok Option.none :=
  (C7_missing_question_array_graceful false
      (JVal.arr [JVal.null, JVal.arr [JVal.null, JVal.null]])).2.2
    (JVal.arr [JVal.null, JVal.null]) JVal.null rfl rfl rfl

/-- C9 (amended): a question entry whose index-4 element exists but is not
a list is skipped entirely: it contributes no descriptor and the loop
continues on the remaining entries exactly as if the entry were absent
(the warning print is outside the embedding).  An entry whose index-4
element is missing, or whose variant list is a list with ill-formed
sub-entries, raises instead, as the counterexample shows. -/
theorem C9_nonlist_variant_skipped (onlyRequired : Bool) (entry en t u : JVal)
    (h1 : pyIndex entry 1 = Except.ok en)
    (h3 : pyIndex entry 3 = Except.ok t)
    (h4 : pyIndex entry 4 = Except.ok u)
    (hu : ∀ xs, u ≠ JVal.arr xs) :
    parse_entry onlyRequired entry = Except.ok []
  ∧ (jvalEqInt t 8 = false → ∀ rest : List JVal,
      parseLoop onlyRequired (entry :: rest) = parseLoop onlyRequired rest) := by
  have hpe : parse_entry onlyRequired entry = Except.ok [] := by
    unfold parse_entry
    rw [h1, h3, h4]
    cases u with
    | arr xs => exact absurd rfl (hu xs)
    | null => rfl
    | bool b => rfl
    | num n => rfl
    | str s => rfl
    | obj fs => rfl
  refine ⟨hpe, ?_⟩
  intro h8 rest
  have hcons : parseLoop onlyRequired (entry :: rest) =
      match pyIndex entry 3 with
      | Except.error e => Except.error e
      | Except.ok t =>
        if jvalEqInt t 8 then
          match parseLoop onlyRequired rest with
          | Except.error e => Except.error e
          | Except.ok (ps, c) => Except.ok (ps, c + 1)
        else
          match parse_entry onlyRequired entry with
          | Except.error e => Except.error e
          | Except.ok infos =>
            match parseLoop onlyRequired rest with
            | Except.error e => Except.error e
            | Except.ok (ps, c) => Except.ok (infos ++ ps, c) := rfl
  rw [hcons, h3]
  simp only [h8, Bool.false_eq_true, if_false, hpe]
  cases hrest : parseLoop onlyRequired rest with
  | error e => rfl
  | ok pc => simp

/-- C9 counterexample: a dump whose single question entry has no index-4
element raises IndexError, and one whose variant list is a list holding a
bare number raises TypeError — neither shape is skipped with a warning. -/
theorem C9_counterexample :
    parse_form_entries false (JVal.arr [JVal.null, JVal.arr [JVal.null,
        JVal.arr [JVal.arr [JVal.null, JVal.str "q", JVal.null, JVal.num 1]]]])
      = Except.error PyErr.indexError
  ∧ parse_form_entries false (JVal.arr [JVal.null, JVal.arr [JVal.null,
        JVal.arr [JVal.arr [JVal.null, JVal.str "q", JVal.null, JVal.num 1,
          JVal.arr [JVal.num 5]]]]])
      = Except.error PyErr.typeError := ⟨rfl, rfl⟩

/-- Structure of a successful normalizer run: the guard chain passed, the
question entries were expanded with the page breaks counted, and the two
pseudo-fields were appended according to the email flag and the page
count. -/
theorem parse_form_entries_ok (oR : Bool) (v : JVal) (out : List JVal)
    (h : parse_form_entries oR v = Except.ok (Option.some out)) :
    ∃ v1 v11 qs ps pageCount v110 mode gt,
      pyIndex v 1 = Except.ok v1 ∧
      pyIndex v1 1 = Except.ok v11 ∧
      pyIter v11 = Except.ok qs ∧
      parseLoop oR qs = Except.ok (ps, pageCount) ∧
      (∀ x ∈ ps, questionShaped x) ∧
      pageCount = qs.countP isPageBreak ∧
      pyIndex v1 10 = Except.ok v110 ∧
      pyIndex v110 6 = Except.ok mode ∧
      jvalGtInt mode 1 = Except.ok gt ∧
      out = (if gt then ps ++ [emailObj] else ps)
        ++ (if pageCount > 0 then [pageHistoryObj pageCount] else []) := by
  unfold parse_form_entries at h
  by_cases hv : jtruthy v
  case neg => simp [eq_false_of_ne_true hv] at h
  case pos =>
  simp only [hv, Bool.not_true, Bool.false_eq_true, if_false] at h
  cases h1 : pyIndex v 1 with
  | error e => rw [h1] at h; cases h
  | ok v1 =>
  rw [h1] at h
  by_cases hv1 : jtruthy v1
  case neg => simp [eq_false_of_ne_true hv1] at h
  case pos =>
  simp only [hv1, Bool.not_true, Bool.false_eq_true, if_false] at h
  cases h11 : pyIndex v1 1 with
  | error e => rw [h11] at h; cases h
  | ok v11 =>
  rw [h11] at h
  by_cases hv11 : jtruthy v11
  case neg => simp [eq_false_of_ne_true hv11] at h
  case pos =>
  simp only [hv11, Bool.not_true, Bool.false_eq_true, if_false] at h
  cases hqs : pyIter v11 with
  | error e => rw [hqs] at h; cases h
  | ok qs =>
  rw [hqs] at h
  dsimp only at h
  cases hloop : parseLoop oR qs with
  | error e => rw [hloop] at h; cases h
  | ok pc =>
  rw [hloop] at h
  cases pc with
  | mk ps pageCount =>
  dsimp only at h
  cases h10 : pyIndex v1 10 with
  | error e => rw [h10] at h; cases h
  | ok v110 =>
  rw [h10] at h
  dsimp only at h
  cases h6 : pyIndex v110 6 with
  | error e => rw [h6] at h; cases h
  | ok mode =>
  rw [h6] at h
  dsimp only at h
  cases hgt : jvalGtInt mode 1 with
  | error e => rw [hgt] at h; cases h
  | ok gt =>
  rw [hgt] at h
  dsimp only at h
  simp only [Except.ok.injEq, Option.some.injEq] at h
  obtain ⟨hshapes, hcount⟩ := parseLoop_spec oR qs ps pageCount hloop
  refine ⟨v1, v11, qs, ps, pageCount, v110, mode, gt, rfl, h11, hqs, hloop,
    hshapes, hcount, h10, h6, hgt, ?_⟩
  by_cases hpc : pageCount > 0
  · simp only [hpc, if_true] at h ⊢
    exact h.symm
  · simp only [hpc, if_false] at h ⊢
    rw [List.append_nil]
    exact h.symm

/-- C9 witness: an entry whose index-4 element is a number contributes
nothing and the loop continues as if it were absent. -/
theorem C9_nonlist_variant_witness :
    parse_entry false (JVal.arr [JVal.null, JVal.str "q", JVal.null, JVal.num 1, JVal.num 7])
      = Except.ok []
  ∧ parseLoop false [JVal.arr [JVal.null, JVal.str "q", JVal.null, JVal.num 1, JVal.num 7]]
      = parseLoop false [] := by
  have h := C9_nonlist_variant_skipped false
    (JVal.arr [JVal.null, JVal.str "q", JVal.null, JVal.num 1, JVal.num 7])
    (JVal.str "q") (JVal.num 1) (JVal.num 7) rfl rfl rfl
    (fun xs hcon => JVal.noConfusion hcon)
  exact ⟨h.1, h.2 rfl []⟩

/-- C5: for every dump the normalizer processes successfully, a page-break
entry contributes no descriptor (the loop on it only increments the page
counter), and when the question array holds N greater than zero page-break
entries the output ends with exactly one page-history pseudo-field, whose
default is the comma-joined sequence from 0 to N; when N equals zero no
page-history pseudo-field occurs anywhere in the output. -/
theorem C5_page_history_pseudo_field (oR : Bool) (v : JVal) (out : List JVal)
    (v1 v11 : JVal) (qs : List JVal)
    (h : parse_form_entries oR v = Except.ok (Option.some out))
    (h1 : pyIndex v 1 = Except.ok v1)
    (h11 : pyIndex v1 1 = Except.ok v11)
    (hqs : pyIter v11 = Except.ok qs) :
    (∀ (q : JVal) (rest : List JVal), isPageBreak q = true →
        parseLoop oR (q :: rest)
          = Except.map (fun pc => (pc.1, pc.2 + 1)) (parseLoop oR rest))
  ∧ (0 < qs.countP isPageBreak →
      ∃ ps, out = ps ++ [pageHistoryObj (qs.countP isPageBreak)]
        ∧ ∀ M, pageHistoryObj M ∉ ps)
  ∧ (qs.countP isPageBreak = 0 → ∀ M, pageHistoryObj M ∉ out) := by
  obtain ⟨w1, w11, wqs, ps, pc, w110, m, g, e1, e11, eqs, eloop, eshapes, ecount,
    e10, e6, egt, eout⟩ := parse_form_entries_ok oR v out h
  rw [h1] at e1
  injection e1 with e1
  subst e1
  rw [h11] at e11
  injection e11 with e11
  subst e11
  rw [hqs] at eqs
  injection eqs with eqs
  subst eqs
  subst ecount
  have hA : ∀ M, pageHistoryObj M ∉ (if g = true then ps ++ [emailObj] else ps) := by
    intro M hmem
    have hps : ∀ x ∈ ps, x ≠ pageHistoryObj M :=
      fun x hx => questionShaped_ne_pageHistory x M (eshapes x hx)
    by_cases hg : g = true
    · rw [if_pos hg] at hmem
      rcases List.mem_append.mp hmem with hm1 | hm2
      · exact hps _ hm1 rfl
      · exact email_ne_pageHistory M (List.mem_singleton.mp hm2).symm
    · rw [if_neg hg] at hmem
      exact hps _ hmem rfl
  refine ⟨?_, ?_, ?_⟩
  · intro q rest hq
    unfold isPageBreak at hq
    cases hq3 : pyIndex q 3 with
    | error e => rw [hq3] at hq; cases hq
    | ok t =>
      rw [hq3] at hq
      dsimp only at hq
      have hcons : parseLoop oR (q :: rest) =
          match pyIndex q 3 with
          | Except.error e => Except.error e
          | Except.ok t =>
            if jvalEqInt t 8 then
              match parseLoop oR rest with
              | Except.error e => Except.error e
              | Except.ok (ps2, c2) => Except.ok (ps2, c2 + 1)
            else
              match parse_entry oR q with
              | Except.error e => Except.error e
              | Except.ok infos =>
                match parseLoop oR rest with
                | Except.error e => Except.error e
                | Except.ok (ps2, c2) => Except.ok (infos ++ ps2, c2) := rfl
      rw [hcons, hq3]
      simp only [hq, if_true]
      cases hrest : parseLoop oR rest with
      | error e => rfl
      | ok pc2 => cases pc2 with | mk ps2 c2 => rfl
  · intro hpos
    refine ⟨(if g = true then ps ++ [emailObj] else ps), ?_, hA⟩
    rw [eout, if_pos hpos]
  · intro hzero M hmem
    rw [eout, hzero] at hmem
    simp only [Nat.lt_irrefl, gt_iff_lt, if_false, List.append_nil] at hmem
    exact hA M hmem

/-- C5 witness: a dump with two page-break entries yields exactly the
page-history pseudo-field with default 0,1,2. -/
theorem C5_page_history_witness :
    commaRange 2 = "0,1,2"
  ∧ ∃ ps, [pageHistoryObj 2] = ps ++ [pageHistoryObj 2]
      ∧ ∀ M, pageHistoryObj M ∉ ps := by
  refine ⟨rfl, ?_⟩
  have h := (C5_page_history_pseudo_field false
    (JVal.arr [JVal.null, JVal.arr [JVal.null,
      JVal.arr [JVal.arr [JVal.null, JVal.null, JVal.null, JVal.num 8],
        JVal.arr [JVal.null, JVal.null, JVal.null, JVal.num 8]],
      JVal.null, JVal.null, JVal.null, JVal.null, JVal.null, JVal.null,
      JVal.null, JVal.null,
      JVal.arr [JVal.null, JVal.null, JVal.null, JVal.null, JVal.null,
        JVal.null, JVal.num 1]]])
    [pageHistoryObj 2]
    (JVal.arr [JVal.null,
      JVal.arr [JVal.arr [JVal.null, JVal.null, JVal.null, JVal.num 8],
        JVal.arr [JVal.null, JVal.null, JVal.null, JVal.num 8]],
      JVal.null, JVal.null, JVal.null, JVal.null, JVal.null, JVal.null,
      JVal.null, JVal.null,
      JVal.arr [JVal.null, JVal.null, JVal.null, JVal.null, JVal.null,
        JVal.null, JVal.num 1]])
    (JVal.arr [JVal.arr [JVal.null, JVal.null, JVal.null, JVal.num 8],
      JVal.arr [JVal.null, JVal.null, JVal.null, JVal.num 8]])
    [JVal.arr [JVal.null, JVal.null, JVal.null, JVal.num 8],
      JVal.arr [JVal.null, JVal.null, JVal.null, JVal.num 8]]
    rfl rfl rfl rfl).2.1 (by decide)
  exact h

/-- C6: for every dump the normalizer processes successfully whose
email-collection flag is one of the documented modes 1, 2, 3, the output
contains the required email pseudo-field exactly once when the mode differs
from 1 (do not collect), and not at all when the mode is 1. -/
theorem C6_email_pseudo_field (oR : Bool) (v : JVal) (out : List JVal)
    (v1 v110 : JVal) (m : Int)
    (h : parse_form_entries oR v = Except.ok (Option.some out))
    (h1 : pyIndex v 1 = Except.ok v1)
    (h10 : pyIndex v1 10 = Except.ok v110)
    (h6 : pyIndex v110 6 = Except.ok (JVal.num m))
    (hdom : m = 1 ∨ m = 2 ∨ m = 3) :
    (m ≠ 1 → ∃ ps tail, out = ps ++ [emailObj] ++ tail
        ∧ emailObj ∉ ps ∧ emailObj ∉ tail)
  ∧ (m = 1 → emailObj ∉ out) := by
  obtain ⟨w1, w11, wqs, ps, pc, w110, mode, g, e1, e11, eqs, eloop, eshapes, ecount,
    e10, e6, egt, eout⟩ := parse_form_entries_ok oR v out h
  rw [h1] at e1
  injection e1 with e1
  subst e1
  rw [h10] at e10
  injection e10 with e10
  subst e10
  rw [h6] at e6
  injection e6 with e6
  rw [← e6] at egt
  have hg : g = decide (1 < m) := by
    simp only [jvalGtInt, Except.ok.injEq] at egt
    exact egt.symm
  have hPS : emailObj ∉ ps :=
    fun hmem => (questionShaped_ne_email _ (eshapes _ hmem)) rfl
  have hTail : emailObj ∉ (if pc > 0 then [pageHistoryObj pc] else []) := by
    by_cases hpc : pc > 0
    · rw [if_pos hpc]
      intro hmem
      exact email_ne_pageHistory pc (List.mem_singleton.mp hmem)
    · rw [if_neg hpc]
      exact List.not_mem_nil _
  constructor
  · intro hm1
    have hm : 1 < m := by
      rcases hdom with hd | hd | hd
      · exact absurd hd hm1
      · omega
      · omega
    have hgt : g = true := by
      rw [hg]
      simp [hm]
    refine ⟨ps, (if pc > 0 then [pageHistoryObj pc] else []), ?_, hPS, hTail⟩
    rw [eout, hgt]
    simp
  · intro hm1
    subst hm1
    have hgf : g = false := by
      rw [hg]
      simp
    intro hmem
    rw [eout, hgf] at hmem
    simp only [Bool.false_eq_true, if_false] at hmem
    rcases List.mem_append.mp hmem with hm | hm
    · exact hPS hm
    · exact hTail hm

/-- C6 witness: a dump whose email-collection mode is 3 yields the required
email pseudo-field exactly once. -/
theorem C6_email_witness :
    ∃ ps tail,
      [JVal.obj [("id", JVal.num 123), ("container_name", JVal.str "Q"),
        ("type", JVal.num 0), ("required", JVal.bool true), ("name", JVal.null),
        ("options", JVal.null)], emailObj] = ps ++ [emailObj] ++ tail
      ∧ emailObj ∉ ps ∧ emailObj ∉ tail := by
  have h := (C6_email_pseudo_field false
    (JVal.arr [JVal.null, JVal.arr [JVal.null,
      JVal.arr [JVal.arr [JVal.null, JVal.str "Q", JVal.null, JVal.num 0,
        JVal.arr [JVal.arr [JVal.num 123, JVal.null, JVal.num 1]]]],
      JVal.null, JVal.null, JVal.null, JVal.null, JVal.null, JVal.null,
      JVal.null, JVal.null,
      JVal.arr [JVal.null, JVal.null, JVal.null, JVal.null, JVal.null,
        JVal.null, JVal.num 3]]])
    [JVal.obj [("id", JVal.num 123), ("container_name", JVal.str "Q"),
      ("type", JVal.num 0), ("required", JVal.bool true), ("name", JVal.null),
      ("options", JVal.null)], emailObj]
    (JVal.arr [JVal.null,
      JVal.arr [JVal.arr [JVal.null, JVal.str "Q", JVal.null, JVal.num 0,
        JVal.arr [JVal.arr [JVal.num 123, JVal.null, JVal.num 1]]]],
      JVal.null, JVal.null, JVal.null, JVal.null, JVal.null, JVal.null,
      JVal.null, JVal.null,
      JVal.arr [JVal.null, JVal.null, JVal.null, JVal.null, JVal.null,
        JVal.null, JVal.num 3]])
    (JVal.arr [JVal.null, JVal.null, JVal.null, JVal.null, JVal.null,
      JVal.null, JVal.num 3])
    3 rfl rfl rfl rfl (Or.inr (Or.inr rfl))).1 (by decide)
  exact h

/-- C8: extraction returns an absent result when the named array literal
is absent from the markup, an absent result when the captured text is not
valid JSON (a logged parse failure, never an exception), and the decoded
value when the captured text is valid JSON. -/
theorem C8_extract_script_variables_cases (name html : String) :
    (searchVar name.data html.data = Option.none →
        extract_script_variables name html = Option.none)
  ∧ (∀ g, searchVar name.data html.data = Option.some g →
        json_loads (String.mk g) = Option.none →
        extract_script_variables name html = Option.none)
  ∧ (∀ g jv, searchVar name.data html.data = Option.some g →
        json_loads (String.mk g) = Option.some jv →
        extract_script_variables name html = Option.some jv) := by
  refine ⟨?_, ?_, ?_⟩
  · intro hs
    simp [extract_script_variables, hs]
  · intro g hs hj
    simp [extract_script_variables, hs, hj]
  · intro g jv hs hj
    simp [extract_script_variables, hs, hj]

/-- C8 witness: a markup fragment holding the literal with valid JSON
decodes to the array, one whose bracketed text is malformed JSON yields an
absent result, and one without the variable yields an absent result. -/
theorem C8_extract_witness :
    extract_script_variables "X" "var X = [1, 2];"
        = Option.some (JVal.arr [JVal.num 1, JVal.num 2])
  ∧ extract_script_variables "X" "var X = [1, oops];" = Option.none
  ∧ extract_script_variables "X" "no such variable here" = Option.none := by
  refine ⟨?_, ?_, ?_⟩
  · exact (C8_extract_script_variables_cases "X" "var X = [1, 2];").2.2
      ['[', '1', ',', ' ', '2', ']'] (JVal.arr [JVal.num 1, JVal.num 2]) rfl rfl
  · exact (C8_extract_script_variables_cases "X" "var X = [1, oops];").2.1
      ['[', '1', ',', ' ', 'o', 'o', 'p', 's', ']'] rfl rfl
  · exact (C8_extract_script_variables_cases "X" "no such variable here").1 rfl
